import Mathlib

/-!
Shallow embedding of the process-orchestration core of the
ndlovu-code-reviewer repository (src/src/index.ts), together with proofs
about its behaviour.  Pure helper functions of the source are translated
directly; stateful process handling is modelled as explicit state passing
over event lists, and the results of external processes are supplied by
explicit environment records.
-/

namespace NdlovuReviewer

/-- Decidable equality for `Except`, used to evaluate the embedding on
concrete environments. -/
instance exceptDecEq {ε α : Type} [DecidableEq ε] [DecidableEq α] :
    DecidableEq (Except ε α) := fun x y =>
  match x, y with
  | .ok a, .ok b => decidable_of_iff (a = b) (by simp)
  | .ok _, .error _ => isFalse (by simp)
  | .error _, .ok _ => isFalse (by simp)
  | .error a, .error b => decidable_of_iff (a = b) (by simp)

/-- JavaScript `String.prototype.split(sep)` for a one-character separator,
on character lists.  Splitting the empty string yields one empty piece. -/
def splitOnChar (sep : Char) : List Char → List (List Char)
  | [] => [[]]
  | c :: cs =>
    let r := splitOnChar sep cs
    if c = sep then [] :: r
    else
      match r with
      | [] => [[c]]
      | h :: t => (c :: h) :: t

/-- JavaScript `String.prototype.trim` on character lists (whitespace as
recognized by `Char.isWhitespace`). -/
def trimChars (l : List Char) : List Char :=
  ((l.dropWhile Char.isWhitespace).reverse.dropWhile Char.isWhitespace).reverse

/-- JavaScript `String.prototype.trim`. -/
def jsTrim (s : String) : String :=
  String.mk (trimChars s.data)

/-- JavaScript `String.prototype.toLowerCase` (ASCII case mapping). -/
def jsToLower (s : String) : String :=
  String.mk (s.data.map Char.toLower)

/-- JavaScript `haystack.includes(needle)`: substring containment. -/
def jsIncludes (haystack needle : String) : Bool :=
  decide (needle.data <:+: haystack.data)

/-- JavaScript `s.endsWith(suffix)`. -/
def jsEndsWith (s suffixStr : String) : Bool :=
  suffixStr.data.isSuffixOf s.data

/-- JavaScript `parseInt` restricted to decimal-digit strings, as produced
by the `\d+` capture groups of the parsers. -/
def digitsToNat (l : List Char) : Nat :=
  l.foldl (fun n c => n * 10 + (c.toNat - '0'.toNat)) 0

/-- Strip an expected literal prefix from the input, returning the
remainder when the literal is present. -/
def stripLit : List Char → List Char → Option (List Char)
  | [], rest => some rest
  | _ :: _, [] => none
  | c :: cs, d :: ds => if c = d then stripLit cs ds else none

/-- The maximal leading run of decimal digits and the remainder, the
semantics of a greedy `\d+` followed by a non-digit literal. -/
def takeDigits (l : List Char) : List Char × List Char :=
  (l.takeWhile Char.isDigit, l.dropWhile Char.isDigit)

/-- A normalized static-analysis finding, the object shape pushed by
`parseJshintOutput` and `parseTypeScriptErrors` in src/src/index.ts. -/
structure Finding where
  filePath : String
  line : Nat
  column : Nat
  message : String
  severity : String
  rule : String
  origin : String
deriving DecidableEq, Repr

/-- Result of matching one JSHint diagnostic line. -/
structure JshintMatch where
  fileSeg : String
  lineNo : Nat
  colNo : Nat
  msg : String
deriving DecidableEq, Repr

/-- The part of the JSHint line pattern after the first capture group:
literal `": line "`, digits, `", col "`, digits, `", "`, then a non-empty
message running to the end of the line. -/
def jshintTail (l : List Char) : Option (Nat × Nat × List Char) :=
  match stripLit (": line ".data) l with
  | none => none
  | some r1 =>
    let (d1, r2) := takeDigits r1
    if d1 = [] then none
    else
      match stripLit (", col ".data) r2 with
      | none => none
      | some r3 =>
        let (d2, r4) := takeDigits r3
        if d2 = [] then none
        else
          match stripLit (", ".data) r4 with
          | none => none
          | some r5 =>
            if r5 = [] then none
            else some (digitsToNat d1, digitsToNat d2, r5)

/-- The regular expression `^(.+): line (\d+), col (\d+), (.+)$` of
`parseJshintOutput`: the greedy first group takes the longest non-empty
prefix after which the rest of the pattern matches. -/
def jshintLineMatch (line : String) : Option JshintMatch :=
  (List.range line.data.length).reverse.findSome? (fun i =>
    if i = 0 then none
    else
      match jshintTail (line.data.drop i) with
      | none => none
      | some (ln, col, msg) =>
        some { fileSeg := String.mk (line.data.take i), lineNo := ln,
               colNo := col, msg := String.mk msg })

/-- Source `parseJshintOutput(output, filePath)`: split on newlines, keep
the lines matching the fixed pattern, and build a Finding per match with
the caller-supplied file path, severity `warning`, source `jshint`. -/
def parseJshintOutput (output : String) (filePath : String) : List Finding :=
  (splitOnChar '\n' output.data).filterMap (fun lchars =>
    match jshintLineMatch (String.mk lchars) with
    | none => none
    | some m =>
      some { filePath := filePath
             line := m.lineNo
             column := m.colNo
             message := if m.msg = "" then "Unknown error" else m.msg
             severity := "warning"
             rule := "jshint"
             origin := "jshint" })

/-- Result of matching one TypeScript compiler diagnostic line. -/
structure TsMatch where
  filePath : String
  lineNo : Nat
  colNo : Nat
  sev : String
  msg : String
deriving DecidableEq, Repr

/-- Greedy `\s+` directly followed by a non-whitespace-initial token:
requires at least one whitespace character and drops the maximal run. -/
def stripWs1 (l : List Char) : Option (List Char) :=
  let p := l.takeWhile Char.isWhitespace
  if p = [] then none else some (l.drop p.length)

/-- The trailing `\s+(.+)$` of the TypeScript diagnostic pattern: greedy
whitespace, backtracking one character when the remainder of the line is
whitespace only, so the captured message is never empty. -/
def tsSevTail (r : List Char) : Option (List Char) :=
  let p := r.takeWhile Char.isWhitespace
  let rest := r.drop p.length
  if p = [] then none
  else if rest ≠ [] then some rest
  else if 2 ≤ p.length then some (r.drop (p.length - 1))
  else none

/-- The part of the TypeScript diagnostic pattern after the opening
parenthesis: `(\d+),(\d+)\):\s+(error|warning)\s+(.+)$`. -/
def tsTailMatch (r1 : List Char) : Option (Nat × Nat × String × String) :=
  let (d1, r2) := takeDigits r1
  if d1 = [] then none
  else
    match stripLit (",".data) r2 with
    | none => none
    | some r3 =>
      let (d2, r4) := takeDigits r3
      if d2 = [] then none
      else
        match stripLit ("):".data) r4 with
        | none => none
        | some r5 =>
          match stripWs1 r5 with
          | none => none
          | some r6 =>
            let sevAndRest : Option (String × List Char) :=
              if ("error".data).isPrefixOf r6 then
                some ("error", r6.drop 5)
              else if ("warning".data).isPrefixOf r6 then
                some ("warning", r6.drop 7)
              else none
            match sevAndRest with
            | none => none
            | some (sev, r7) =>
              match tsSevTail r7 with
              | none => none
              | some msg => some (digitsToNat d1, digitsToNat d2, sev, String.mk msg)

/-- The regular expression
`^([^(]+)\((\d+),(\d+)\):\s+(error|warning)\s+(.+)$` of
`parseTypeScriptErrors`.  The first group is everything before the first
opening parenthesis and must be non-empty; the captured file path is its
trimmed form. -/
def tsLineMatch (line : String) : Option TsMatch :=
  let g1 := line.data.takeWhile (fun c => c ≠ '(')
  let rest := line.data.dropWhile (fun c => c ≠ '(')
  if g1 = [] then none
  else
    match rest with
    | [] => none
    | _ :: r1 =>
      match tsTailMatch r1 with
      | none => none
      | some (ln, col, sev, msg) =>
        some { filePath := String.mk (trimChars g1)
               lineNo := ln
               colNo := col
               sev := sev
               msg := msg }

/-- Source `parseTypeScriptErrors(output)`: split on newlines, keep the
lines matching the compiler diagnostic pattern, and build a Finding per
match, with the file path trimmed of surrounding whitespace. -/
def parseTypeScriptErrors (output : String) : List Finding :=
  (splitOnChar '\n' output.data).filterMap (fun lchars =>
    match tsLineMatch (String.mk lchars) with
    | none => none
    | some m =>
      some { filePath := m.filePath
             line := m.lineNo
             column := m.colNo
             message := if m.msg = "" then "Unknown error" else m.msg
             severity := if m.sev = "" then "error" else m.sev
             rule := "typescript"
             origin := "typescript" })

/-- A JavaScript error value as seen by the catch sites of the source:
an object with an optional Node `code` property, an `instanceof Error`
flag, and a message. -/
structure JsError where
  code : Option String
  isErrorInstance : Bool
  message : String
deriving DecidableEq, Repr

/-- Source `isArgumentTooLongError(error)`: when the object carries a
`code` property the result is decided by `code === "E2BIG"` alone;
otherwise an `Error` instance whose lower-cased message contains
`"argument list too long"` is recognized. -/
def isArgumentTooLongError (e : JsError) : Bool :=
  match e.code with
  | some c => c == "E2BIG"
  | none => e.isErrorInstance && jsIncludes (jsToLower e.message) "argument list too long"

/-- Captured stdout/stderr pair, the `GeminiResult` of the source. -/
structure GeminiResult where
  stdout : String
  stderr : String
deriving DecidableEq, Repr

/-- One asynchronous event delivered to a spawned child process's
handlers: the timeout timer firing, a stdout or stderr chunk, the
`error` event, or the `close` event with its exit code (`none` models a
`null` code from signal termination). -/
inductive SpawnEvent where
  | timeoutFires
  | stdoutData (s : String)
  | stderrData (s : String)
  | errorEvt (e : JsError)
  | closeEvt (code : Option Int)
deriving DecidableEq, Repr

/-- Reason a spawn promise is rejected. -/
inductive RejectReason where
  | timedOut (ms : Nat)
  | procError (e : JsError)
  | nonZeroExit (code : Option Int) (stderr : String)
deriving DecidableEq, Repr

/-- A settlement of the spawn promise: a resolution with the captured
output, or a rejection. -/
inductive Settlement where
  | resolve (stdout stderr : String)
  | reject (r : RejectReason)
deriving DecidableEq, Repr

/-- Mutable local state of a spawn call: the accumulating output
buffers, the one-shot `settled` flag, and the number of stderr warnings
logged. -/
structure SpawnState where
  stdoutBuf : String
  stderrBuf : String
  settled : Bool
  warnings : Nat
deriving DecidableEq, Repr

/-- The initial state of a spawn call. -/
def initState : SpawnState := { stdoutBuf := "", stderrBuf := "", settled := false, warnings := 0 }

/-- One event handled by `spawnGemini`'s handlers (src/src/index.ts
lines 36-84): data events append to the buffers unconditionally; the
timeout, error and close handlers are guarded by the `settled` flag, and
the close handler rejects on a non-zero (or null) exit code, otherwise
logs a warning when the trimmed stderr is non-empty and resolves. -/
def geminiStep (timeoutMs : Nat) (st : SpawnState) : SpawnEvent → SpawnState × List Settlement
  | .stdoutData s => ({ st with stdoutBuf := st.stdoutBuf ++ s }, [])
  | .stderrData s => ({ st with stderrBuf := st.stderrBuf ++ s }, [])
  | .timeoutFires =>
    if st.settled then (st, [])
    else ({ st with settled := true }, [.reject (.timedOut timeoutMs)])
  | .errorEvt e =>
    if st.settled then (st, [])
    else ({ st with settled := true }, [.reject (.procError e)])
  | .closeEvt code =>
    if st.settled then (st, [])
    else if code = some 0 then
      ({ st with settled := true
                 warnings := st.warnings + (if jsTrim st.stderrBuf = "" then 0 else 1) },
       [.resolve st.stdoutBuf st.stderrBuf])
    else ({ st with settled := true }, [.reject (.nonZeroExit code st.stderrBuf)])

/-- One event handled by `spawnEslint`'s handlers (src/src/index.ts
lines 112-172): identical to `geminiStep` except that the close handler
ignores the exit code and always resolves with the captured output. -/
def eslintStep (timeoutMs : Nat) (st : SpawnState) : SpawnEvent → SpawnState × List Settlement
  | .stdoutData s => ({ st with stdoutBuf := st.stdoutBuf ++ s }, [])
  | .stderrData s => ({ st with stderrBuf := st.stderrBuf ++ s }, [])
  | .timeoutFires =>
    if st.settled then (st, [])
    else ({ st with settled := true }, [.reject (.timedOut timeoutMs)])
  | .errorEvt e =>
    if st.settled then (st, [])
    else ({ st with settled := true }, [.reject (.procError e)])
  | .closeEvt _ =>
    if st.settled then (st, [])
    else ({ st with settled := true }, [.resolve st.stdoutBuf st.stderrBuf])

/-- Run a sequence of events through a handler step function,
collecting every settlement emitted. -/
def runEvents (step : SpawnState → SpawnEvent → SpawnState × List Settlement) :
    SpawnState → List SpawnEvent → SpawnState × List Settlement
  | st, [] => (st, [])
  | st, e :: rest =>
    let p := step st e
    let q := runEvents step p.1 rest
    (q.1, p.2 ++ q.2)

/-- Whether an event reaches a settlement-capable handler. -/
def isSettlingEvent : SpawnEvent → Bool
  | .timeoutFires => true
  | .errorEvt _ => true
  | .closeEvt _ => true
  | .stdoutData _ => false
  | .stderrData _ => false

/-- Concatenation, in arrival order, of the stdout chunks of an event
list. -/
def outConcat : List SpawnEvent → String
  | [] => ""
  | SpawnEvent.stdoutData s :: rest => s ++ outConcat rest
  | _ :: rest => outConcat rest

/-- Concatenation, in arrival order, of the stderr chunks of an event
list. -/
def errConcat : List SpawnEvent → String
  | [] => ""
  | SpawnEvent.stderrData s :: rest => s ++ errConcat rest
  | _ :: rest => errConcat rest

/-- The bytes `spawnGemini` writes to the child's stdin (src lines
86-92): nothing for a null payload, otherwise the payload with a newline
appended when it does not already end in one. -/
def stdinBytes : Option String → String
  | none => ""
  | some input => if input.data.getLast? = some '\n' then input else input ++ "\n"

/-- One logical invocation of the external reviewer executable: its
argument vector and optional stdin payload. -/
structure Invocation where
  args : List String
  stdinPayload : Option String
deriving DecidableEq, Repr

/-- Environment for `runGeminiPrompt`: the settlement outcome of the
argument-passing invocation and of the stdin-streaming invocation. -/
structure GeminiEnv where
  argInvoke : Except JsError GeminiResult
  stdinInvoke : Except JsError GeminiResult

/-- Source `runGeminiPrompt(prompt)`: first invoke with the prompt as
the single argument; on a failure recognized by
`isArgumentTooLongError` retry once streaming the prompt over stdin
with an empty argument vector; any other failure propagates.  Returns
the result together with the list of invocations performed. -/
def runGeminiPrompt (env : GeminiEnv) (prompt : String) :
    Except JsError GeminiResult × List Invocation :=
  match env.argInvoke with
  | .ok r => (.ok r, [{ args := [prompt], stdinPayload := none }])
  | .error e =>
    if isArgumentTooLongError e then
      (env.stdinInvoke,
       [{ args := [prompt], stdinPayload := none }, { args := [], stdinPayload := some prompt }])
    else (.error e, [{ args := [prompt], stdinPayload := none }])

/-- Environment describing the outcomes of the external interactions of
`runProjectLinter`: the ESLint config probe, the ESLint run and the
`JSON.parse` of its stdout, the `which jshint` probe, the per-file
`jshint` runs, the tsconfig probe, and the `npx tsc --noEmit` run.  An
`Except.error` models a thrown/rejected call. -/
structure LinterEnv where
  hasEslintConfig : Bool
  eslintRun : Except JsError GeminiResult
  jsonParse : String → Except JsError (List Finding)
  jshintAvailable : Bool
  jshintRun : String → Except JsError GeminiResult
  hasTsConfig : Bool
  tscRun : Except JsError GeminiResult

/-- The ESLint branch of `runProjectLinter` (src lines 180-187): run
`spawnEslint`, then parse the stdout as JSON when its trimmed form is
non-empty, else produce no findings; any throw surfaces as an error. -/
def eslintAttempt (env : LinterEnv) : Except JsError (List Finding) :=
  match env.eslintRun with
  | .error e => .error e
  | .ok r => if jsTrim r.stdout = "" then .ok [] else env.jsonParse r.stdout

/-- The JSHint loop of `runProjectLinter` (src lines 192-199): one
`jshint <file>` run per changed file in order, parsing the stderr of each
run whose stderr is non-empty; a throw on any file abandons the whole
attempt (partial results are discarded). -/
def jshintLoop (env : LinterEnv) : List String → Except JsError (List Finding)
  | [] => .ok []
  | f :: rest =>
    match env.jshintRun f with
    | .error e => .error e
    | .ok r =>
      match jshintLoop env rest with
      | .error e => .error e
      | .ok tail =>
        .ok ((if r.stderr = "" then [] else parseJshintOutput r.stderr f) ++ tail)

/-- Feasibility of the TypeScript-compiler fallback (src line 208):
tsconfig.json exists and some changed file ends in `.ts` or `.tsx`. -/
def tscFeasible (env : LinterEnv) (changedFiles : List String) : Bool :=
  env.hasTsConfig && changedFiles.any (fun f => jsEndsWith f ".ts" || jsEndsWith f ".tsx")

/-- Source `runProjectLinter(changedFiles)` (src lines 175-226): try
ESLint when a config file is present, fall through to JSHint when it is
on the path, fall through to the TypeScript compiler when feasible, and
produce the empty finding list when nothing is feasible or everything
feasible fails. -/
def runProjectLinter (env : LinterEnv) (changedFiles : List String) : List Finding :=
  let afterEslint : Option (List Finding) :=
    if env.hasEslintConfig then
      match eslintAttempt env with
      | .ok v => some v
      | .error _ => none
    else none
  match afterEslint with
  | some v => v
  | none =>
    let afterJshint : Option (List Finding) :=
      if env.jshintAvailable then
        match jshintLoop env changedFiles with
        | .ok v => some v
        | .error _ => none
      else none
    match afterJshint with
    | some v => v
    | none =>
      if tscFeasible env changedFiles then
        match env.tscRun with
        | .ok r => if r.stderr = "" then [] else parseTypeScriptErrors r.stderr
        | .error _ => []
      else []

/-- The alternatives of the extension filter regular expression
`/\.(js|ts|tsx|vue)$/` of `runHybridAnalysis` (src line 305). -/
def extAlternatives : List (List Char) := [['j', 's'], ['t', 's'], ['t', 's', 'x'], ['v', 'u', 'e']]

/-- Whether the anchored tail `\.(js|ts|tsx|vue)$` matches starting at
the given suffix of the subject: a literal dot, then one alternative
running exactly to the end of the subject. -/
def extMatchAt : List Char → Bool
  | [] => false
  | c :: rest => c = '.' && extAlternatives.any (fun w => rest == w)

/-- JavaScript `/\.(js|ts|tsx|vue)$/.test(s)`: the pattern matches at
some position of the subject. -/
def extRegexTest (s : String) : Bool :=
  (List.range (s.data.length + 1)).any (fun i => extMatchAt (s.data.drop i))

/-- The changed-file filter of `runHybridAnalysis` (src lines 301-305):
split the version-control listing into lines, drop blank lines, and keep
the paths matching the extension pattern. -/
def changedFilesOf (gitFilesOut : String) : List String :=
  (((splitOnChar '\n' gitFilesOut.data).map String.mk).filter
    (fun f => jsTrim f ≠ "")).filter (fun f => extRegexTest f)

/-- JSON value, for modelling the `JSON.stringify(value, null, 2)`
serializations built by the source. -/
inductive Json where
  | str (s : String)
  | num (n : Nat)
  | arr (elements : List Json)
  | obj (fields : List (String × Json))
deriving Repr

/-- Hexadecimal digit character. -/
def hexDigit (n : Nat) : Char :=
  if n < 10 then Char.ofNat ('0'.toNat + n) else Char.ofNat ('a'.toNat + n - 10)

/-- JSON string escaping of one character, as performed by
`JSON.stringify`. -/
def escapeChar (c : Char) : List Char :=
  if c = '"' then ['\\', '"']
  else if c = '\\' then ['\\', '\\']
  else if c = '\n' then ['\\', 'n']
  else if c = '\r' then ['\\', 'r']
  else if c = '\t' then ['\\', 't']
  else if c.toNat = 8 then ['\\', 'b']
  else if c.toNat = 12 then ['\\', 'f']
  else if c.toNat < 32 then
    '\\' :: 'u' :: [hexDigit (c.toNat / 4096 % 16), hexDigit (c.toNat / 256 % 16),
                    hexDigit (c.toNat / 16 % 16), hexDigit (c.toNat % 16)]
  else [c]

/-- JSON string quoting, as performed by `JSON.stringify`. -/
def quoteStr (s : String) : String :=
  String.mk ('"' :: s.data.foldr (fun c acc => escapeChar c ++ acc) ['"'])

/-- Indentation produced by `JSON.stringify(v, null, 2)` at nesting
depth `d`. -/
def indentStr (d : Nat) : String :=
  String.mk (List.replicate (2 * d) ' ')

mutual

/-- `JSON.stringify(v, null, 2)` rendering of a value whose enclosing
container sits at depth `d`. -/
def jsonRender (d : Nat) : Json → String
  | .str s => quoteStr s
  | .num n => toString n
  | .arr [] => "[]"
  | .arr (x :: xs) =>
    "[\n" ++ jsonRenderItems (d + 1) (x :: xs) ++ "\n" ++ indentStr d ++ "]"
  | .obj [] => "\x7b\x7d"
  | .obj (f :: fs) =>
    "\x7b\n" ++ jsonRenderFields (d + 1) (f :: fs) ++ "\n" ++ indentStr d ++ "\x7d"

/-- Comma-and-newline separated rendering of array elements at depth `d`. -/
def jsonRenderItems (d : Nat) : List Json → String
  | [] => ""
  | [x] => indentStr d ++ jsonRender d x
  | x :: y :: xs =>
    indentStr d ++ jsonRender d x ++ ",\n" ++ jsonRenderItems d (y :: xs)

/-- Comma-and-newline separated rendering of object fields at depth `d`. -/
def jsonRenderFields (d : Nat) : List (String × Json) → String
  | [] => ""
  | [(k, v)] => indentStr d ++ quoteStr k ++ ": " ++ jsonRender d v
  | (k, v) :: g :: gs =>
    indentStr d ++ quoteStr k ++ ": " ++ jsonRender d v ++ ",\n" ++ jsonRenderFields d (g :: gs)

end

/-- `JSON.stringify(v, null, 2)`. -/
def jsonStringify2 (j : Json) : String := jsonRender 0 j

/-- JSON shape of one finding object, in the field order of the source
object literals. -/
def findingToJson (f : Finding) : Json :=
  .obj [("filePath", .str f.filePath), ("line", .num f.line), ("column", .num f.column),
        ("message", .str f.message), ("severity", .str f.severity),
        ("rule", .str f.rule), ("source", .str f.origin)]

/-- The sentinel `'{}'` returned by `runHybridAnalysis` when no relevant
file changed. -/
def emptySentinel : String := "\x7b\x7d"

/-- Environment for one `runHybridAnalysis` run: the stdout of
`git diff HEAD --name-only --diff-filter=AM`, the linter environment,
and the stdout of `git diff HEAD`. -/
structure HybridEnv where
  gitFilesOut : String
  linter : LinterEnv
  gitDiffOut : String

/-- A subprocess-producing stage executed during a run: the
version-control listing, the analyzer stage (with all its probe and tool
subprocesses), the full-diff retrieval, or a reviewer invocation. -/
inductive Invok where
  | gitListFiles
  | analyzerStage
  | gitDiffFull
  | geminiCall (args : List String) (stdinPayload : Option String)
deriving DecidableEq, Repr

/-- Source `runHybridAnalysis()` (src lines 298-329): list the changed
files, short-circuit to `'{}'` when none remains after filtering,
otherwise run the project linter, fetch the raw diff, and serialize
`{ diff, linterReport }` with two-space indentation.  Returns the result
string together with the stages that ran. -/
def runHybridAnalysis (env : HybridEnv) : String × List Invok :=
  let changedFiles := changedFilesOf env.gitFilesOut
  if changedFiles.length = 0 then (emptySentinel, [.gitListFiles])
  else
    let linterReport := runProjectLinter env.linter changedFiles
    (jsonStringify2 (.obj [("diff", .str env.gitDiffOut),
                           ("linterReport", .arr (linterReport.map findingToJson))]),
     [.gitListFiles, .analyzerStage, .gitDiffFull])

/-- The canonical empty result returned by the tool handler when no
relevant file changed (src lines 349-360). -/
def canonicalEmptyResult : String :=
  jsonStringify2 (.obj [("summary", .str "No relevant files changed."),
                        ("assessment", .str ""), ("findings", .arr [])])

/-- Environment of the `review-local-changes` tool handler: the hybrid
analysis environment, the reviewer invocation environment, and the fixed
prompt template around the analysis data (its wording is opaque to the
core). -/
structure ToolEnv where
  hybrid : HybridEnv
  gemini : GeminiEnv
  promptPrefix : String
  promptSuffix : String

/-- The error rethrown by the tool handler's catch block (src line 428). -/
def wrapToolError (e : JsError) : JsError :=
  { code := none, isErrorInstance := true,
    message := "An unexpected error occurred: " ++ e.message }

/-- Source `review-local-changes` handler (src lines 342-430): run the
hybrid analysis, short-circuit to the canonical empty result when the
analysis returned the `'{}'` sentinel, otherwise build the prompt around
the analysis data, invoke the reviewer through `runGeminiPrompt`, and
return its raw stdout; a reviewer failure is rethrown wrapped.  Returns
the outcome together with the stages that ran. -/
def reviewLocalChanges (env : ToolEnv) : Except JsError String × List Invok :=
  let h := runHybridAnalysis env.hybrid
  if h.1 = emptySentinel then (.ok canonicalEmptyResult, h.2)
  else
    let prompt := env.promptPrefix ++ h.1 ++ env.promptSuffix
    let g := runGeminiPrompt env.gemini prompt
    let glog := g.2.map (fun inv => Invok.geminiCall inv.args inv.stdinPayload)
    match g.1 with
    | .ok r => (.ok r.stdout, h.2 ++ glog)
    | .error e => (.error (wrapToolError e), h.2 ++ glog)

/-- The shell command string built by the JSHint fallback (src line
194): the file path is interpolated into the command text handed to
`exec`. -/
def jshintCommand (file : String) : String := "jshint " ++ file

/-- The shell command string effectively executed by `spawnEslint` (src
lines 116-119).  Modelled from Node `child_process.spawn` semantics:
with `shell: true` the command and every argument are joined with
spaces into one string run by the shell, so the file paths are not
discrete argv elements of the spawned tool. -/
def eslintShellCommand (files : List String) : String :=
  String.intercalate " " ("npx" :: "eslint" :: "--format" :: "json" :: files)

/-- A process-handler step function that respects the one-shot
settlement guard: from a settled state every event is ignored, and from
an unsettled state exactly the settlement-capable events settle, each
emitting exactly one settlement. -/
def StepGuarded (step : SpawnState → SpawnEvent → SpawnState × List Settlement) : Prop :=
  (∀ st e, st.settled = true → (step st e).2 = [] ∧ (step st e).1.settled = true) ∧
  (∀ st e, st.settled = false →
    (step st e).1.settled = isSettlingEvent e ∧
    (step st e).2.length = (if isSettlingEvent e then 1 else 0))

/-- Sample error for concrete instantiations: an ESLint crash. -/
def wJsErr : JsError := { code := none, isErrorInstance := true, message := "eslint crashed" }

/-- Sample finding produced by the JSHint fallback on file `a.js`. -/
def wFinding : Finding :=
  { filePath := "a.js", line := 1, column := 2, message := "boom",
    severity := "warning", rule := "jshint", origin := "jshint" }

/-- Linter environment in which ESLint is configured but crashes and
JSHint is available and reports one issue per file. -/
def wLinterEnv : LinterEnv :=
  { hasEslintConfig := true
    eslintRun := .error wJsErr
    jsonParse := fun _ => .ok []
    jshintAvailable := true
    jshintRun := fun f => .ok { stdout := "", stderr := f ++ ": line 1, col 2, boom" }
    hasTsConfig := false
    tscRun := .ok { stdout := "", stderr := "" } }

/-- Linter environment in which no analyzer is feasible. -/
def trivialLinterEnv : LinterEnv :=
  { hasEslintConfig := false
    eslintRun := .ok { stdout := "", stderr := "" }
    jsonParse := fun _ => .ok []
    jshintAvailable := false
    jshintRun := fun _ => .ok { stdout := "", stderr := "" }
    hasTsConfig := false
    tscRun := .ok { stdout := "", stderr := "" } }

/-- An error that carries a non-E2BIG `code` property while its message
contains the argument-too-long phrase. -/
def c4Err : JsError :=
  { code := some "ENOENT", isErrorInstance := true,
    message := "spawn failed: argument list too long" }

/-- Reviewer environment whose argument-passing invocation fails with
`c4Err`. -/
def c4Env : GeminiEnv :=
  { argInvoke := .error c4Err, stdinInvoke := .ok { stdout := "ok", stderr := "" } }

/-- An E2BIG error from an oversized argument vector. -/
def e2bigErr : JsError :=
  { code := some "E2BIG", isErrorInstance := true, message := "spawn E2BIG" }

/-- Reviewer environment whose argument-passing invocation fails with
E2BIG and whose stdin invocation succeeds. -/
def e2bigEnv : GeminiEnv :=
  { argInvoke := .error e2bigErr, stdinInvoke := .ok { stdout := "out", stderr := "" } }

/-- Reviewer environment whose argument-passing invocation succeeds. -/
def okGeminiEnv : GeminiEnv :=
  { argInvoke := .ok { stdout := "", stderr := "" },
    stdinInvoke := .ok { stdout := "", stderr := "" } }

/-- Tool environment with an empty version-control listing. -/
def emptyToolEnv : ToolEnv :=
  { hybrid := { gitFilesOut := "", linter := trivialLinterEnv, gitDiffOut := "" }
    gemini := okGeminiEnv
    promptPrefix := ""
    promptSuffix := "" }

/-- Tool environment with a single changed file `a.js`. -/
def oneFileToolEnv : ToolEnv :=
  { hybrid := { gitFilesOut := "a.js", linter := trivialLinterEnv, gitDiffOut := "d" }
    gemini := okGeminiEnv
    promptPrefix := ""
    promptSuffix := "" }

lemma data_append (a b : String) : (a ++ b).data = a.data ++ b.data := rfl

lemma mk_data (s : String) : String.mk s.data = s := rfl

lemma empty_append_str (s : String) : "" ++ s = s := rfl

lemma geminiStep_guarded (tms : Nat) : StepGuarded (geminiStep tms) := by
  constructor
  · intro st e h
    cases e <;> simp [geminiStep, h]
  · intro st e h
    cases e <;> simp [geminiStep, isSettlingEvent, h]
    split <;> simp

lemma eslintStep_guarded (tms : Nat) : StepGuarded (eslintStep tms) := by
  constructor
  · intro st e h
    cases e <;> simp [eslintStep, h]
  · intro st e h
    cases e <;> simp [eslintStep, isSettlingEvent, h]

lemma runEvents_of_settled {step : SpawnState → SpawnEvent → SpawnState × List Settlement}
    (hg : StepGuarded step) (evs : List SpawnEvent) (st : SpawnState)
    (h : st.settled = true) :
    (runEvents step st evs).2 = [] ∧ (runEvents step st evs).1.settled = true := by
  induction evs generalizing st with
  | nil => simpa [runEvents] using h
  | cons e rest ih =>
    obtain ⟨h1, h2⟩ := hg.1 st e h
    obtain ⟨ih1, ih2⟩ := ih (step st e).1 h2
    simp [runEvents, h1, ih1, ih2]

lemma runEvents_count {step : SpawnState → SpawnEvent → SpawnState × List Settlement}
    (hg : StepGuarded step) (evs : List SpawnEvent) (st : SpawnState)
    (h : st.settled = false) :
    (runEvents step st evs).2.length = (if evs.any isSettlingEvent then 1 else 0) ∧
    (runEvents step st evs).1.settled = evs.any isSettlingEvent := by
  induction evs generalizing st with
  | nil => simpa [runEvents] using h
  | cons e rest ih =>
    obtain ⟨h1, h2⟩ := hg.2 st e h
    by_cases he : isSettlingEvent e = true
    · rw [he] at h1 h2
      obtain ⟨r1, r2⟩ := runEvents_of_settled hg rest (step st e).1 h1
      simp [runEvents, r1, r2, he, h2]
    · rw [Bool.not_eq_true] at he
      rw [he] at h1 h2
      simp only [Bool.false_eq_true, if_false] at h2
      obtain ⟨r1, r2⟩ := ih (step st e).1 h1
      have h2nil : (step st e).2 = [] := List.length_eq_zero.mp h2
      simp [runEvents, h2nil, r1, r2, he]

lemma runEvents_append (step : SpawnState → SpawnEvent → SpawnState × List Settlement)
    (p q : List SpawnEvent) (st : SpawnState) :
    runEvents step st (p ++ q) =
      ((runEvents step (runEvents step st p).1 q).1,
       (runEvents step st p).2 ++ (runEvents step (runEvents step st p).1 q).2) := by
  induction p generalizing st with
  | nil => simp [runEvents]
  | cons e rest ih => simp [runEvents, ih]

/-- Claim C2: spawnGemini settlement is exactly-once.  For every
interleaving of timeout, error, data and close events, the number of
settlements emitted is one when the interleaving contains any
settlement-capable event and zero otherwise (never two, in particular
when a timeout fires concurrently with a process exit), and events
delivered after a settlement leave the emitted settlement unchanged. -/
theorem spawnGemini_settlement_once (tms : Nat) (evs : List SpawnEvent) :
    (runEvents (geminiStep tms) initState evs).2.length
      = (if evs.any isSettlingEvent then 1 else 0)
    ∧ ∀ p q : List SpawnEvent, (runEvents (geminiStep tms) initState p).2 ≠ [] →
        (runEvents (geminiStep tms) initState (p ++ q)).2
          = (runEvents (geminiStep tms) initState p).2 := by
  constructor
  · exact (runEvents_count (geminiStep_guarded tms) evs initState rfl).1
  · intro p q hne
    have hcount := runEvents_count (geminiStep_guarded tms) p initState rfl
    have hany : p.any isSettlingEvent = true := by
      by_contra hno
      rw [Bool.not_eq_true] at hno
      rw [hno] at hcount
      simp only [Bool.false_eq_true, if_false] at hcount
      exact hne (List.length_eq_zero.mp hcount.1)
    have hsettled : (runEvents (geminiStep tms) initState p).1.settled = true := by
      rw [hcount.2, hany]
    obtain ⟨r1, _⟩ := runEvents_of_settled (geminiStep_guarded tms) q
      (runEvents (geminiStep tms) initState p).1 hsettled
    rw [runEvents_append, r1, List.append_nil]

/-- Witness for C2 at a concrete race: a zero-exit close followed by the
timeout firing settles exactly once, and the late timeout changes
nothing. -/
theorem spawnGemini_settlement_once_witness :
    (runEvents (geminiStep 1000) initState
        [SpawnEvent.closeEvt (some 0), SpawnEvent.timeoutFires]).2.length = 1
    ∧ (runEvents (geminiStep 1000) initState
        ([SpawnEvent.closeEvt (some 0)] ++ [SpawnEvent.timeoutFires])).2
      = (runEvents (geminiStep 1000) initState [SpawnEvent.closeEvt (some 0)]).2 := by
  constructor
  · have h := (spawnGemini_settlement_once 1000
      [SpawnEvent.closeEvt (some 0), SpawnEvent.timeoutFires]).1
    simpa using h
  · exact (spawnGemini_settlement_once 1000 []).2
      [SpawnEvent.closeEvt (some 0)] [SpawnEvent.timeoutFires] (by decide)

lemma runEvents_data_only (step : SpawnState → SpawnEvent → SpawnState × List Settlement)
    (hout : ∀ st s, step st (.stdoutData s) = ({ st with stdoutBuf := st.stdoutBuf ++ s }, []))
    (herr : ∀ st s, step st (.stderrData s) = ({ st with stderrBuf := st.stderrBuf ++ s }, []))
    (pre : List SpawnEvent) (hpre : pre.all (fun e => !isSettlingEvent e) = true)
    (st : SpawnState) :
    runEvents step st pre =
      ({ st with stdoutBuf := st.stdoutBuf ++ outConcat pre,
                 stderrBuf := st.stderrBuf ++ errConcat pre }, []) := by
  induction pre generalizing st with
  | nil => simp [runEvents, outConcat, errConcat]
  | cons e rest ih =>
    rw [List.all_cons, Bool.and_eq_true] at hpre
    cases e with
    | stdoutData s =>
      rw [runEvents, hout st s, ih hpre.2]
      simp [outConcat, errConcat, String.append_assoc]
    | stderrData s =>
      rw [runEvents, herr st s, ih hpre.2]
      simp [outConcat, errConcat, String.append_assoc]
    | timeoutFires => simp [isSettlingEvent] at hpre
    | errorEvt e => simp [isSettlingEvent] at hpre
    | closeEvt c => simp [isSettlingEvent] at hpre

/-- Claim C1 counterexample: the ESLint runner resolves on a non-zero
exit.  A run that emits `boom` on stderr and then closes with exit code
1 settles with a resolution carrying the captured output — it is not
rejected, contradicting the claim that a non-zero exit fails the call
for every runner. -/
theorem spawnEslint_nonzero_exit_resolves :
    (runEvents (eslintStep 30000) initState
        [SpawnEvent.stderrData "boom", SpawnEvent.closeEvt (some 1)]).2
      = [Settlement.resolve "" "boom"] := by
  decide

/-- Claim C1 (amended): for the Gemini runner a close event after any
sequence of output chunks resolves with the captured stdout exactly
when the exit code is 0 (a non-empty trimmed stderr on a zero-exit run
only increments the warning counter), and a non-zero or null code
rejects with an error carrying the exit code and the captured stderr;
the ESLint runner instead resolves with the captured output regardless
of the exit code. -/
theorem processRunner_exit_semantics (tms : Nat) (pre : List SpawnEvent) (code : Option Int)
    (hpre : pre.all (fun e => !isSettlingEvent e) = true) :
    (runEvents (geminiStep tms) initState (pre ++ [SpawnEvent.closeEvt code])).2
      = [if code = some 0 then Settlement.resolve (outConcat pre) (errConcat pre)
         else Settlement.reject (.nonZeroExit code (errConcat pre))]
    ∧ (runEvents (eslintStep tms) initState (pre ++ [SpawnEvent.closeEvt code])).2
      = [Settlement.resolve (outConcat pre) (errConcat pre)]
    ∧ (code = some 0 →
        (runEvents (geminiStep tms) initState (pre ++ [SpawnEvent.closeEvt code])).1.warnings
          = (if jsTrim (errConcat pre) = "" then 0 else 1)) := by
  have hstate :
      ({ stdoutBuf := initState.stdoutBuf ++ outConcat pre,
         stderrBuf := initState.stderrBuf ++ errConcat pre,
         settled := initState.settled, warnings := initState.warnings } : SpawnState)
        = { stdoutBuf := outConcat pre, stderrBuf := errConcat pre,
            settled := false, warnings := 0 } := by
    simp [initState, empty_append_str]
  have hg := runEvents_data_only (geminiStep tms)
    (fun _ _ => rfl) (fun _ _ => rfl) pre hpre initState
  have he := runEvents_data_only (eslintStep tms)
    (fun _ _ => rfl) (fun _ _ => rfl) pre hpre initState
  rw [hstate] at hg he
  rw [runEvents_append, runEvents_append, hg, he]
  refine ⟨?_, ?_, ?_⟩
  · by_cases hc : code = some 0 <;> simp [runEvents, geminiStep, hc]
  · simp [runEvents, eslintStep]
  · intro h0
    subst h0
    simp [runEvents, geminiStep]

/-- Witness for the amended C1 at a concrete run: one stdout chunk, one
stderr chunk, then a zero-exit close resolves for both runners, with one
stderr warning logged by the Gemini runner. -/
theorem processRunner_exit_semantics_witness :
    (runEvents (geminiStep 7) initState
        ([SpawnEvent.stdoutData "o", SpawnEvent.stderrData "e"] ++ [SpawnEvent.closeEvt (some 0)])).2
      = [Settlement.resolve "o" "e"]
    ∧ (runEvents (eslintStep 7) initState
        ([SpawnEvent.stdoutData "o", SpawnEvent.stderrData "e"] ++ [SpawnEvent.closeEvt (some 0)])).2
      = [Settlement.resolve "o" "e"]
    ∧ (runEvents (geminiStep 7) initState
        ([SpawnEvent.stdoutData "o", SpawnEvent.stderrData "e"] ++ [SpawnEvent.closeEvt (some 0)])).1.warnings = 1 := by
  obtain ⟨h1, h2, h3⟩ := processRunner_exit_semantics 7
    [SpawnEvent.stdoutData "o", SpawnEvent.stderrData "e"] (some 0) (by decide)
  refine ⟨?_, ?_, ?_⟩
  · rw [h1]; decide
  · rw [h2]; decide
  · rw [h3 rfl]; decide

/-- Claim C4 counterexample: an error carrying the code `ENOENT`
together with a message containing `argument list too long` satisfies
the claim's disjunctive argument-too-long signature, yet the code
performs no stdin retry and propagates the error: the presence of any
`code` property makes `isArgumentTooLongError` ignore the message. -/
theorem argTransport_signature_counterexample :
    c4Err.code = some "ENOENT"
    ∧ jsIncludes (jsToLower c4Err.message) "argument list too long" = true
    ∧ (runGeminiPrompt c4Env "p").2 = [{ args := ["p"], stdinPayload := none }]
    ∧ (runGeminiPrompt c4Env "p").1 = Except.error c4Err := by
  refine ⟨rfl, by decide, ?_, ?_⟩ <;> rfl

/-- Claim C4 (amended): the transport strategy first invokes the
reviewer with the payload as the single argument; it retries exactly
once — with an empty argument vector and the payload streamed over
stdin, newline-terminated — if and only if that invocation fails with a
signature recognized by `isArgumentTooLongError` (code `E2BIG` when a
`code` property is present, the message being consulted only for
code-less `Error` instances); any other failure propagates unchanged
with no retry. -/
theorem runGeminiPrompt_transport (env : GeminiEnv) (prompt : String) :
    ((runGeminiPrompt env prompt).2.head? = some { args := [prompt], stdinPayload := none })
    ∧ ((runGeminiPrompt env prompt).2.length = 2 ↔
        ∃ e, env.argInvoke = Except.error e ∧ isArgumentTooLongError e = true)
    ∧ (∀ e, env.argInvoke = Except.error e → isArgumentTooLongError e = true →
        runGeminiPrompt env prompt =
          (env.stdinInvoke, [{ args := [prompt], stdinPayload := none },
                             { args := [], stdinPayload := some prompt }]))
    ∧ (∀ e, env.argInvoke = Except.error e → isArgumentTooLongError e = false →
        runGeminiPrompt env prompt = (Except.error e, [{ args := [prompt], stdinPayload := none }]))
    ∧ ((stdinBytes (some prompt)).data.getLast? = some '\n') := by
  refine ⟨?_, ?_, ?_, ?_, ?_⟩
  · unfold runGeminiPrompt
    cases henv : env.argInvoke with
    | ok r => rfl
    | error e =>
      by_cases hl : isArgumentTooLongError e = true <;> simp [hl]
  · unfold runGeminiPrompt
    cases henv : env.argInvoke with
    | ok r =>
      simp only [List.length_cons, List.length_nil]
      constructor
      · intro hlen
        exact absurd hlen (by norm_num)
      · rintro ⟨e, he, -⟩
        exact absurd he (by simp)
    | error e =>
      by_cases hl : isArgumentTooLongError e = true
      · simp only [hl, if_true]
        exact ⟨fun _ => ⟨e, rfl, hl⟩, fun _ => rfl⟩
      · simp only [hl, if_false, List.length_cons, List.length_nil]
        constructor
        · intro hlen
          exact absurd hlen (by norm_num)
        · rintro ⟨f, hf, hfl⟩
          cases hf
          exact absurd hfl hl
  · intro e he hl
    unfold runGeminiPrompt
    rw [he]
    simp [hl]
  · intro e he hl
    unfold runGeminiPrompt
    rw [he]
    simp [hl]
  · simp only [stdinBytes]
    by_cases hn : prompt.data.getLast? = some '\n'
    · rw [if_pos hn]
      exact hn
    · rw [if_neg hn, data_append]
      rw [show ("\n" : String).data = ['\n'] from rfl]
      exact List.getLast?_concat prompt.data

/-- Witness for the amended C4: with an E2BIG failure on the argument
invocation, the call retries over stdin and returns the stdin
invocation's result. -/
theorem runGeminiPrompt_transport_witness :
    e2bigEnv.argInvoke = Except.error e2bigErr
    ∧ isArgumentTooLongError e2bigErr = true
    ∧ runGeminiPrompt e2bigEnv "p" =
        (Except.ok { stdout := "out", stderr := "" },
         [{ args := ["p"], stdinPayload := none }, { args := [], stdinPayload := some "p" }]) := by
  refine ⟨rfl, by decide, ?_⟩
  have h := (runGeminiPrompt_transport e2bigEnv "p").2.2.1 e2bigErr rfl (by decide)
  rw [h]
  rfl

lemma jshintLoop_eslintConfig_indep (env : LinterEnv) (files : List String) :
    jshintLoop { env with hasEslintConfig := false } files = jshintLoop env files := by
  induction files with
  | nil => rfl
  | cons f rest ih => cases h : env.jshintRun f <;> simp [jshintLoop, h, ih]

lemma tscFeasible_eslintConfig_indep (env : LinterEnv) (files : List String) :
    tscFeasible { env with hasEslintConfig := false } files = tscFeasible env files := rfl

/-- Claim C3: strategies are tried in the fixed order ESLint (feasible
iff a recognized config exists), JSHint (feasible iff the executable is
on the path), TypeScript compiler (feasible iff tsconfig.json exists and
a changed file ends in `.ts`/`.tsx`); the first feasible strategy's
output is used exclusively, execution failure of a feasible strategy
falls through to the next candidate, outputs are never merged (the
result is always exactly one strategy's output or empty), and when
nothing is feasible or everything feasible fails the result is the empty
finding list.  In particular, when ESLint is configured but its
invocation fails, the result equals what the JSHint strategy (if
feasible) produces; a feasible JSHint run that succeeds decides the
result whenever the ESLint tier yields nothing, and a feasible
TypeScript run decides the result whenever both earlier tiers yield
nothing. -/
theorem runProjectLinter_priority (env : LinterEnv) (files : List String) :
    (∀ v, env.hasEslintConfig = true → eslintAttempt env = .ok v →
        runProjectLinter env files = v)
    ∧ (∀ e, env.hasEslintConfig = true → eslintAttempt env = .error e →
        runProjectLinter env files
          = runProjectLinter { env with hasEslintConfig := false } files)
    ∧ (∀ e v, env.hasEslintConfig = true → eslintAttempt env = .error e →
        env.jshintAvailable = true → jshintLoop env files = .ok v →
        runProjectLinter env files = v)
    ∧ ((∃ v, env.hasEslintConfig = true ∧ eslintAttempt env = .ok v ∧
          runProjectLinter env files = v)
       ∨ (∃ v, env.jshintAvailable = true ∧ jshintLoop env files = .ok v ∧
          runProjectLinter env files = v)
       ∨ (∃ r, tscFeasible env files = true ∧ env.tscRun = .ok r ∧
          runProjectLinter env files
            = (if r.stderr = "" then [] else parseTypeScriptErrors r.stderr))
       ∨ runProjectLinter env files = [])
    ∧ ((env.hasEslintConfig = false ∨ ∃ e, eslintAttempt env = .error e) →
       (env.jshintAvailable = false ∨ ∃ e, jshintLoop env files = .error e) →
       (tscFeasible env files = false ∨ ∃ e, env.tscRun = .error e) →
       runProjectLinter env files = [])
    ∧ (∀ v, (env.hasEslintConfig = false ∨ ∃ e, eslintAttempt env = .error e) →
        env.jshintAvailable = true → jshintLoop env files = .ok v →
        runProjectLinter env files = v)
    ∧ (∀ r, (env.hasEslintConfig = false ∨ ∃ e, eslintAttempt env = .error e) →
        (env.jshintAvailable = false ∨ ∃ e, jshintLoop env files = .error e) →
        tscFeasible env files = true → env.tscRun = .ok r →
        runProjectLinter env files
          = (if r.stderr = "" then [] else parseTypeScriptErrors r.stderr)) := by
  refine ⟨?_, ?_, ?_, ?_, ?_, ?_, ?_⟩
  · intro v hconf hok
    simp [runProjectLinter, hconf, hok]
  · intro e hconf herr
    simp [runProjectLinter, hconf, herr, jshintLoop_eslintConfig_indep,
      tscFeasible_eslintConfig_indep]
  · intro e v hconf herr hjav hjok
    simp [runProjectLinter, hconf, herr, hjav, hjok]
  · by_cases h1 : env.hasEslintConfig
    · cases he : eslintAttempt env with
      | ok v =>
        exact Or.inl ⟨v, h1, rfl, by simp [runProjectLinter, h1, he]⟩
      | error e =>
        by_cases h2 : env.jshintAvailable
        · cases hj : jshintLoop env files with
          | ok v =>
            exact Or.inr (Or.inl ⟨v, h2, rfl, by simp [runProjectLinter, h1, he, h2, hj]⟩)
          | error f =>
            by_cases h3 : tscFeasible env files
            · cases ht : env.tscRun with
              | ok r =>
                exact Or.inr (Or.inr (Or.inl
                  ⟨r, h3, rfl, by simp [runProjectLinter, h1, he, h2, hj, h3, ht]⟩))
              | error g =>
                exact Or.inr (Or.inr (Or.inr
                  (by simp [runProjectLinter, h1, he, h2, hj, h3, ht])))
            · exact Or.inr (Or.inr (Or.inr
                (by simp [runProjectLinter, h1, he, h2, hj, h3])))
        · by_cases h3 : tscFeasible env files
          · cases ht : env.tscRun with
            | ok r =>
              exact Or.inr (Or.inr (Or.inl
                ⟨r, h3, rfl, by simp [runProjectLinter, h1, he, h2, h3, ht]⟩))
            | error g =>
              exact Or.inr (Or.inr (Or.inr (by simp [runProjectLinter, h1, he, h2, h3, ht])))
          · exact Or.inr (Or.inr (Or.inr (by simp [runProjectLinter, h1, he, h2, h3])))
    · by_cases h2 : env.jshintAvailable
      · cases hj : jshintLoop env files with
        | ok v =>
          exact Or.inr (Or.inl ⟨v, h2, rfl, by simp [runProjectLinter, h1, h2, hj]⟩)
        | error f =>
          by_cases h3 : tscFeasible env files
          · cases ht : env.tscRun with
            | ok r =>
              exact Or.inr (Or.inr (Or.inl
                ⟨r, h3, rfl, by simp [runProjectLinter, h1, h2, hj, h3, ht]⟩))
            | error g =>
              exact Or.inr (Or.inr (Or.inr (by simp [runProjectLinter, h1, h2, hj, h3, ht])))
          · exact Or.inr (Or.inr (Or.inr (by simp [runProjectLinter, h1, h2, hj, h3])))
      · by_cases h3 : tscFeasible env files
        · cases ht : env.tscRun with
          | ok r =>
            exact Or.inr (Or.inr (Or.inl
              ⟨r, h3, rfl, by simp [runProjectLinter, h1, h2, h3, ht]⟩))
          | error g =>
            exact Or.inr (Or.inr (Or.inr (by simp [runProjectLinter, h1, h2, h3, ht])))
        · exact Or.inr (Or.inr (Or.inr (by simp [runProjectLinter, h1, h2, h3])))
  · intro hesl hjsh htsc
    have h1 : (if env.hasEslintConfig then
          match eslintAttempt env with
          | .ok v => some v
          | .error _ => none
        else none) = (none : Option (List Finding)) := by
      rcases hesl with h | ⟨e, he⟩
      · simp [h]
      · simp [he]
    have h2 : (if env.jshintAvailable then
          match jshintLoop env files with
          | .ok v => some v
          | .error _ => none
        else none) = (none : Option (List Finding)) := by
      rcases hjsh with h | ⟨e, he⟩
      · simp [h]
      · simp [he]
    have h3 : (if tscFeasible env files then
          match env.tscRun with
          | .ok r => if r.stderr = "" then [] else parseTypeScriptErrors r.stderr
          | .error _ => []
        else []) = ([] : List Finding) := by
      rcases htsc with h | ⟨e, he⟩
      · simp [h]
      · rcases hfeas : tscFeasible env files with hf | hf
        · simp
        · simp [he]
    simp only [runProjectLinter, h1, h2]
    exact h3
  · intro v hesl hjav hjok
    have h1 : (if env.hasEslintConfig then
          match eslintAttempt env with
          | .ok v => some v
          | .error _ => none
        else none) = (none : Option (List Finding)) := by
      rcases hesl with h | ⟨e, he⟩
      · simp [h]
      · simp [he]
    simp only [runProjectLinter, h1]
    simp [hjav, hjok]
  · intro r hesl hjsh hfeas hok
    have h1 : (if env.hasEslintConfig then
          match eslintAttempt env with
          | .ok v => some v
          | .error _ => none
        else none) = (none : Option (List Finding)) := by
      rcases hesl with h | ⟨e, he⟩
      · simp [h]
      · simp [he]
    have h2 : (if env.jshintAvailable then
          match jshintLoop env files with
          | .ok v => some v
          | .error _ => none
        else none) = (none : Option (List Finding)) := by
      rcases hjsh with h | ⟨e, he⟩
      · simp [h]
      · simp [he]
    simp only [runProjectLinter, h1, h2]
    simp [hfeas, hok]

/-- Witness for C3: in `wLinterEnv` ESLint is configured but crashes and
JSHint is feasible and reports one issue on `a.js`; the selector's
result is exactly the JSHint output. -/
theorem runProjectLinter_priority_witness :
    wLinterEnv.hasEslintConfig = true
    ∧ eslintAttempt wLinterEnv = .error wJsErr
    ∧ wLinterEnv.jshintAvailable = true
    ∧ jshintLoop wLinterEnv ["a.js"] = .ok [wFinding]
    ∧ runProjectLinter wLinterEnv ["a.js"] = [wFinding] := by
  refine ⟨rfl, rfl, rfl, by decide, ?_⟩
  exact (runProjectLinter_priority wLinterEnv ["a.js"]).2.2.1 wJsErr [wFinding]
    rfl rfl rfl (by decide)

lemma extMatchAt_iff (l : List Char) :
    extMatchAt l = true ↔ ∃ w ∈ extAlternatives, l = '.' :: w := by
  cases l with
  | nil => simp [extMatchAt, extAlternatives]
  | cons c cs =>
    simp only [extMatchAt, Bool.and_eq_true, decide_eq_true_eq, List.any_eq_true, beq_iff_eq]
    constructor
    · rintro ⟨rfl, w, hw, rfl⟩
      exact ⟨cs, hw, rfl⟩
    · rintro ⟨w, hw, hl⟩
      rw [List.cons.injEq] at hl
      exact ⟨hl.1, w, hw, hl.2⟩

lemma exts_suffix_of_drop (s : String) (i : Nat) (w : List Char)
    (hw : w ∈ extAlternatives) (hdrop : s.data.drop i = '.' :: w) :
    ∃ ext ∈ ([".js", ".ts", ".tsx", ".vue"] : List String), ext.data <:+ s.data := by
  have hsuf : ('.' :: w) <:+ s.data := by
    rw [← hdrop]
    exact List.drop_suffix i s.data
  simp only [extAlternatives, List.mem_cons, List.not_mem_nil, or_false] at hw
  rcases hw with rfl | rfl | rfl | rfl
  · exact ⟨".js", by simp, hsuf⟩
  · exact ⟨".ts", by simp, hsuf⟩
  · exact ⟨".tsx", by simp, hsuf⟩
  · exact ⟨".vue", by simp, hsuf⟩

lemma extRegexTest_iff (s : String) :
    extRegexTest s = true
      ↔ ∃ ext ∈ ([".js", ".ts", ".tsx", ".vue"] : List String), ext.data <:+ s.data := by
  unfold extRegexTest
  rw [List.any_eq_true]
  constructor
  · rintro ⟨i, hi, hm⟩
    rw [extMatchAt_iff] at hm
    obtain ⟨w, hw, hdrop⟩ := hm
    exact exts_suffix_of_drop s i w hw hdrop
  · rintro ⟨ext, hext, t, ht⟩
    refine ⟨t.length, ?_, ?_⟩
    · rw [List.mem_range]
      have hle : t.length ≤ s.data.length := by
        rw [← ht, List.length_append]
        omega
      omega
    · rw [extMatchAt_iff]
      have hdrop : s.data.drop t.length = ext.data := by
        rw [← ht, List.drop_left]
      simp only [List.mem_cons, List.not_mem_nil, or_false] at hext
      rcases hext with rfl | rfl | rfl | rfl
      · exact ⟨['j', 's'], by simp [extAlternatives], by rw [hdrop]⟩
      · exact ⟨['t', 's'], by simp [extAlternatives], by rw [hdrop]⟩
      · exact ⟨['t', 's', 'x'], by simp [extAlternatives], by rw [hdrop]⟩
      · exact ⟨['v', 'u', 'e'], by simp [extAlternatives], by rw [hdrop]⟩

/-- Claim C6: a path is kept by the ChangeSet collector's filter exactly
when it is one of the lines of the version-control listing of
added-or-modified files, is not blank, and carries one of the recognized
extensions `.js`, `.ts`, `.tsx`, `.vue` as a suffix; every other line —
blank, other extension, or no extension — is excluded.  (Deleted files
never appear in the listing, which is produced with a diff filter
restricted to added and modified files.) -/
theorem changedFiles_characterization (s f : String) :
    f ∈ changedFilesOf s ↔
      (f.data ∈ splitOnChar '\n' s.data ∧ jsTrim f ≠ ""
       ∧ ∃ ext ∈ ([".js", ".ts", ".tsx", ".vue"] : List String), ext.data <:+ f.data) := by
  unfold changedFilesOf
  rw [List.mem_filter, List.mem_filter, List.mem_map]
  constructor
  · rintro ⟨⟨⟨l, hl, rfl⟩, htrim⟩, hext⟩
    refine ⟨hl, ?_, (extRegexTest_iff _).mp hext⟩
    simpa using htrim
  · rintro ⟨hl, htrim, hext⟩
    refine ⟨⟨⟨f.data, hl, mk_data f⟩, ?_⟩, (extRegexTest_iff f).mpr hext⟩
    simpa using htrim

lemma trimChars_eq_nil_iff (l : List Char) :
    trimChars l = [] ↔ ∀ c ∈ l, Char.isWhitespace c := by
  unfold trimChars
  rw [List.reverse_eq_nil_iff, List.dropWhile_eq_nil_iff]
  constructor
  · intro h c hc
    have hsplit : c ∈ l.takeWhile Char.isWhitespace ++ l.dropWhile Char.isWhitespace := by
      rw [List.takeWhile_append_dropWhile]
      exact hc
    rcases List.mem_append.mp hsplit with h1 | h2
    · exact List.mem_takeWhile_imp h1
    · exact h c (List.mem_reverse.mpr h2)
  · intro h c hc
    exact h c ((List.dropWhile_sublist _).mem (List.mem_reverse.mp hc))

/-- Claim C8 counterexample: the TypeScript parser, applied to a
diagnostic line whose pre-parenthesis segment is whitespace only,
produces a Finding with an empty filePath; likewise the JSHint parser
propagates an empty file-path argument into its Finding. -/
theorem findings_emptyPath_counterexample :
    parseTypeScriptErrors "   (1,2): error boom"
        = [{ filePath := "", line := 1, column := 2, message := "boom",
             severity := "error", rule := "typescript", origin := "typescript" }]
    ∧ parseJshintOutput "x: line 1, col 2, m" ""
        = [{ filePath := "", line := 1, column := 2, message := "m",
             severity := "warning", rule := "jshint", origin := "jshint" }] := by
  constructor <;> decide

/-- Claim C8 (amended): every Finding produced by the two parsers
carries a non-empty message; a JSHint finding's filePath equals the
file-path argument, hence is non-empty whenever that argument is; a
TypeScript finding's filePath is empty exactly when the matched line's
pre-parenthesis segment is whitespace only. -/
theorem findings_field_invariants (output fp : String) :
    (∀ f ∈ parseJshintOutput output fp, f.message ≠ "" ∧ f.filePath = fp)
    ∧ (fp ≠ "" → ∀ f ∈ parseJshintOutput output fp, f.filePath ≠ "")
    ∧ (∀ f ∈ parseTypeScriptErrors output, f.message ≠ "")
    ∧ (∀ (line : String) (m : TsMatch), tsLineMatch line = some m →
        (m.filePath = "" ↔
          (line.data.takeWhile (fun c => c ≠ '(')).all Char.isWhitespace = true)) := by
  have hjs : ∀ f ∈ parseJshintOutput output fp, f.message ≠ "" ∧ f.filePath = fp := by
    intro f hf
    rw [parseJshintOutput, List.mem_filterMap] at hf
    obtain ⟨l, -, hsome⟩ := hf
    cases hmatch : jshintLineMatch (String.mk l) with
    | none => rw [hmatch] at hsome; exact absurd hsome (by simp)
    | some m =>
      rw [hmatch, Option.some.injEq] at hsome
      subst hsome
      refine ⟨?_, rfl⟩
      by_cases hm : m.msg = "" <;> simp [hm]
  refine ⟨hjs, fun hfp f hf => ?_, ?_, ?_⟩
  · rw [(hjs f hf).2]
    exact hfp
  · intro f hf
    rw [parseTypeScriptErrors, List.mem_filterMap] at hf
    obtain ⟨l, -, hsome⟩ := hf
    cases hmatch : tsLineMatch (String.mk l) with
    | none => rw [hmatch] at hsome; exact absurd hsome (by simp)
    | some m =>
      rw [hmatch, Option.some.injEq] at hsome
      subst hsome
      by_cases hm : m.msg = "" <;> simp [hm]
  · intro line m h
    simp only [tsLineMatch] at h
    split at h
    · exact absurd h (by simp)
    · split at h
      · exact absurd h (by simp)
      · split at h
        · exact absurd h (by simp)
        · rw [Option.some.injEq] at h
          subst h
          show String.mk (trimChars (line.data.takeWhile (fun c => c ≠ '('))) = "" ↔ _
          constructor
          · intro hh
            have hnil : trimChars (line.data.takeWhile (fun c => c ≠ '(')) = [] :=
              congrArg String.data hh
            rw [trimChars_eq_nil_iff] at hnil
            rw [List.all_eq_true]
            exact hnil
          · intro hh
            rw [List.all_eq_true] at hh
            have hnil := (trimChars_eq_nil_iff _).mpr hh
            rw [hnil]

/-- Witness for the amended C8 on a concrete JSHint run: the produced
finding has a non-empty message and carries the given file path. -/
theorem findings_field_invariants_witness :
    wFinding.message ≠ "" ∧ wFinding.filePath = "a.js" :=
  (findings_field_invariants "a.js: line 1, col 2, boom" "a.js").1 wFinding (by decide)

lemma splitOnChar_no_sep (sep : Char) (l : List Char) (h : ∀ c ∈ l, c ≠ sep) :
    splitOnChar sep l = [l] := by
  induction l with
  | nil => rfl
  | cons c cs ih =>
    have hc : c ≠ sep := h c (List.mem_cons_self c cs)
    have hrest := ih (fun d hd => h d (List.mem_cons_of_mem c hd))
    simp [splitOnChar, hc, hrest]

/-- Claim C9: the JSHint parser maps the fixture line
`src/app.js: line 10, col 3, Missing semicolon` with file path
`src/app.js` to exactly one Finding with line 10, column 3, message
`Missing semicolon`, severity `warning` and source `jshint`; every
finding it produces has severity `warning` and source `jshint`; and a
line that does not match the fixed pattern is silently skipped,
producing no finding and no error. -/
theorem parseJshint_fixture_spec :
    parseJshintOutput "src/app.js: line 10, col 3, Missing semicolon" "src/app.js"
        = [{ filePath := "src/app.js", line := 10, column := 3,
             message := "Missing semicolon", severity := "warning",
             rule := "jshint", origin := "jshint" }]
    ∧ (∀ out fp : String, ∀ f ∈ parseJshintOutput out fp,
        f.severity = "warning" ∧ f.origin = "jshint")
    ∧ (∀ s fp : String, s.data.all (fun c => c ≠ '\n') = true →
        jshintLineMatch s = none → parseJshintOutput s fp = []) := by
  refine ⟨by decide, ?_, ?_⟩
  · intro out fp f hf
    rw [parseJshintOutput, List.mem_filterMap] at hf
    obtain ⟨l, -, hsome⟩ := hf
    cases hmatch : jshintLineMatch (String.mk l) with
    | none => rw [hmatch] at hsome; exact absurd hsome (by simp)
    | some m =>
      rw [hmatch, Option.some.injEq] at hsome
      subst hsome
      exact ⟨rfl, rfl⟩
  · intro s fp hall hnone
    have hns : ∀ c ∈ s.data, c ≠ '\n' := by
      intro c hc
      have := List.all_eq_true.mp hall c hc
      simpa using this
    rw [parseJshintOutput, splitOnChar_no_sep '\n' s.data hns]
    simp [mk_data, hnone]

/-- Witness for C9: a line without the fixed pattern yields no finding. -/
theorem parseJshint_fixture_spec_witness :
    parseJshintOutput "nonsense" "f" = [] :=
  parseJshint_fixture_spec.2.2 "nonsense" "f" (by decide) (by decide)

/-- Claim C5: when the filtered ChangeSet is empty the tool handler
returns the canonical empty result — summary `No relevant files
changed.`, empty assessment, empty findings — and the only subprocess
stage that ran is the version-control listing that produced the
ChangeSet: neither the analyzer stage nor the reviewer is invoked, nor
even the full-diff retrieval. -/
theorem orchestrator_empty_shortcircuit (env : ToolEnv)
    (h : changedFilesOf env.hybrid.gitFilesOut = []) :
    reviewLocalChanges env = (Except.ok canonicalEmptyResult, [Invok.gitListFiles])
    ∧ canonicalEmptyResult =
        "\x7b\n  \"summary\": \"No relevant files changed.\",\n  \"assessment\": \"\",\n  \"findings\": []\n\x7d" := by
  constructor
  · unfold reviewLocalChanges runHybridAnalysis
    rw [h]
    rfl
  · rfl

/-- Witness for C5 at the concrete empty listing. -/
theorem orchestrator_empty_shortcircuit_witness :
    changedFilesOf emptyToolEnv.hybrid.gitFilesOut = []
    ∧ reviewLocalChanges emptyToolEnv = (Except.ok canonicalEmptyResult, [Invok.gitListFiles]) :=
  ⟨by decide, (orchestrator_empty_shortcircuit emptyToolEnv (by decide)).1⟩

lemma jsonRender_obj_ne_sentinel (f : String × Json) (fs : List (String × Json)) :
    jsonRender 0 (Json.obj (f :: fs)) ≠ emptySentinel := by
  intro h
  obtain ⟨rest, hr⟩ : ∃ rest, (jsonRender 0 (Json.obj (f :: fs))).data = '\x7b' :: '\n' :: rest :=
    ⟨_, rfl⟩
  have h2 : '\x7b' :: '\n' :: rest = emptySentinel.data := by rw [← hr, h]
  rw [show emptySentinel.data = ['\x7b', '\x7d'] from rfl] at h2
  simp at h2

/-- Claim C10: the hybrid analysis returns the sentinel `'{}'` exactly
when the filtered change set is empty — any non-empty change set yields
the two-space-indented serialization of the two-field object
`{ diff, linterReport }`, which is never the string `'{}'` — so the tool
handler's string-equality short-circuit test takes the reviewer branch
(and performs a reviewer invocation) whenever any relevant file
changed. -/
theorem hybrid_sentinel_iff (env : HybridEnv) :
    ((runHybridAnalysis env).1 = emptySentinel ↔ changedFilesOf env.gitFilesOut = [])
    ∧ (∀ tenv : ToolEnv, tenv.hybrid = env → changedFilesOf env.gitFilesOut ≠ [] →
        ∃ inv ∈ (reviewLocalChanges tenv).2, ∃ args payload,
          inv = Invok.geminiCall args payload) := by
  have hmain : ∀ henv : HybridEnv,
      (runHybridAnalysis henv).1 = emptySentinel ↔ changedFilesOf henv.gitFilesOut = [] := by
    intro henv
    unfold runHybridAnalysis
    by_cases hc : (changedFilesOf henv.gitFilesOut).length = 0
    · rw [if_pos hc]
      simp [List.length_eq_zero.mp hc]
    · rw [if_neg hc]
      simp only []
      constructor
      · intro hsent
        exact absurd hsent (jsonRender_obj_ne_sentinel _ _)
      · intro hnil
        rw [hnil] at hc
        exact absurd rfl hc
  refine ⟨hmain env, ?_⟩
  · intro tenv htenv hne
    unfold reviewLocalChanges
    have hns : (runHybridAnalysis tenv.hybrid).1 ≠ emptySentinel := by
      rw [htenv]
      intro hsent
      exact hne ((hmain env).mp hsent)
    rw [if_neg hns]
    cases harg : tenv.gemini.argInvoke with
    | ok r =>
      refine ⟨Invok.geminiCall [tenv.promptPrefix ++ (runHybridAnalysis tenv.hybrid).1
        ++ tenv.promptSuffix] none, ?_, _, _, rfl⟩
      simp [runGeminiPrompt, harg]
    | error e =>
      refine ⟨Invok.geminiCall [tenv.promptPrefix ++ (runHybridAnalysis tenv.hybrid).1
        ++ tenv.promptSuffix] none, ?_, _, _, rfl⟩
      by_cases hl : isArgumentTooLongError e = true
      · simp only [runGeminiPrompt, harg, hl, if_true]
        cases tenv.gemini.stdinInvoke <;> simp
      · simp [runGeminiPrompt, harg, hl]

/-- Witness for C10: with one changed file `a.js` the analysis result is
not the sentinel, and the tool handler performs a reviewer invocation. -/
theorem hybrid_sentinel_iff_witness :
    changedFilesOf oneFileToolEnv.hybrid.gitFilesOut = ["a.js"]
    ∧ ((runHybridAnalysis oneFileToolEnv.hybrid).1 = emptySentinel ↔
        changedFilesOf oneFileToolEnv.hybrid.gitFilesOut = [])
    ∧ ∃ inv ∈ (reviewLocalChanges oneFileToolEnv).2, ∃ args payload,
        inv = Invok.geminiCall args payload := by
  refine ⟨by decide, (hybrid_sentinel_iff oneFileToolEnv.hybrid).1, ?_⟩
  exact (hybrid_sentinel_iff oneFileToolEnv.hybrid).2 oneFileToolEnv rfl (by decide)

/-- Claim C7: the code contradicts its stated injection-safety.  The
JSHint fallback interpolates each changed file path into the shell
command text handed to `exec`, and `spawnEslint` passes `shell: true`,
under which the command and arguments are joined into one shell command
string; at the failing input `a.js; rm -rf ~` the path's shell
metacharacters become part of the command text instead of a discrete
argv element. -/
theorem shellInjection_failing_input :
    jshintCommand "a.js; rm -rf ~" = "jshint a.js; rm -rf ~"
    ∧ eslintShellCommand ["a.js; rm -rf ~"]
        = "npx eslint --format json a.js; rm -rf ~" := by
  constructor <;> rfl

end NdlovuReviewer
